import Mathlib

/-!
Verification of the threat-detection engine (packet inspector and file
scanner) of the `security-android` repository, against its natural-language
specification.

Modelling conventions:
* A network packet is a `List (Fin 256)` (the raw bytes of one IP frame).
* Rust slice indexing, which panics when out of bounds, is modelled by
  `Option`-valued access: a `none` result of an inspector models a panic,
  `some v` models normal termination with verdict code `v`
  (0 = Allow, 1 = Malicious destination / C2 / TLS, 2 = Sensitive data,
  3 = Suspicious large transfer / DNS tunneling).
* `f32`/`f64` confidence values are modelled as `ℚ`; the Shannon-entropy
  computation is modelled over `ℝ`.
* External collaborators (the filesystem, the UTF-8 lossy decoder and the
  serde JSON parser) are parameters of the functions that consume them.
-/

namespace SecurityAndroid

/-- Bytes of a packet or of file content, as in the Rust `u8`. -/
abbrev Byte := Fin 256

/-- Checked slice indexing: `p[i]` in Rust, `none` models the panic. -/
def byteAt (p : List Byte) (i : Nat) : Option Nat :=
  (p.get? i).map Fin.val

/-- Big-endian `u16` read from two consecutive bytes
(`u16::from_be_bytes([packet[i], packet[i+1]])`). -/
def read_u16 (p : List Byte) (i : Nat) : Option Nat :=
  match byteAt p i, byteAt p (i + 1) with
  | some a, some b => some (a * 256 + b)
  | _, _ => none

/-- Big-endian `u32` destination address read from bytes 16..19
(`u32::from_be_bytes([packet[16], packet[17], packet[18], packet[19]])`). -/
def dst_ip (p : List Byte) : Option Nat :=
  match byteAt p 16, byteAt p 17, byteAt p 18, byteAt p 19 with
  | some a, some b, some c, some d =>
      some (a * 16777216 + b * 65536 + c * 256 + d)
  | _, _, _, _ => none

/-- The packet inspector state: the threat-IP set
(`PacketInspector { threat_ips: AHashSet<u32> }`), modelled as a list whose
membership test is the set-membership test. -/
structure PacketInspector where
  threat_ips : List Nat

/-- `PacketInspector::is_known_c2_port`: fixed set of command-and-control
ports `{8080, 8443, 53, 5353, 1935, 9999, 22, 23}`. -/
def is_known_c2_port (port : Nat) : Bool :=
  port = 8080 || port = 8443 || port = 53 || port = 5353 ||
  port = 1935 || port = 9999 || port = 22 || port = 23

/-- `u8::to_ascii_lowercase`. -/
def toAsciiLower (b : Nat) : Nat :=
  if 65 ≤ b ∧ b ≤ 90 then b + 32 else b

/-- Contiguous-subsequence search: `hay.windows(n).any(|w| w == needle)`
for `n = needle.length` (the window starting at each index `i`). -/
def listContainsSeq {α : Type} [DecidableEq α] (hay pat : List α) : Bool :=
  (List.range (hay.length - pat.length + 1)).any
    (fun i => decide ((hay.drop i).take pat.length = pat))

/-- `PacketInspector::bytes_contains_case_insensitive`. -/
def bytes_contains_case_insensitive (hay needle : List Nat) : Bool :=
  if needle.isEmpty || hay.length < needle.length then false
  else listContainsSeq (hay.map toAsciiLower) (needle.map toAsciiLower)

/-- Byte classifier used by `looks_like_base64`: `A-Z`, `a-z`, `0-9`,
`+`, `/`, `=`, `-`, `_`. -/
def isB64Char (c : Nat) : Bool :=
  (65 ≤ c && c ≤ 90) || (97 ≤ c && c ≤ 122) || (48 ≤ c && c ≤ 57) ||
  c = 43 || c = 47 || c = 61 || c = 45 || c = 95

/-- `PacketInspector::looks_like_base64`: more than 90% base64-like bytes in
a sample of at most 128 bytes.  The Rust division `alpha * 100 / sample_len`
panics when `sample_len = 0`, modelled by `none`. -/
def looks_like_base64 (slice : List Nat) : Option Bool :=
  let sample_len := min slice.length 128
  let s := slice.take sample_len
  let alpha := s.countP isB64Char
  if sample_len = 0 then none
  else some (decide (90 < alpha * 100 / sample_len))

/-- Decimal digit character (`'0'..'9'`). -/
def digitCh (d : Nat) : Char := Char.ofNat (48 + d)

/-- Decimal rendering of one byte, as produced by `format!("{}", b)` for
`b < 1000` (bytes are `< 256`). -/
def decRepr (n : Nat) : List Char :=
  if n < 10 then [digitCh n]
  else if n < 100 then [digitCh (n / 10), digitCh (n % 10)]
  else [digitCh (n / 100), digitCh (n / 10 % 10), digitCh (n % 10)]

/-- `Vec::join("-")`: interleave the parts with a single dash. -/
def joinDash : List (List Char) → List Char
  | [] => []
  | [p] => p
  | p :: q :: ps => p ++ '-' :: joinDash (q :: ps)

/-- `PacketInspector::calculate_tls_fingerprint`: decimal renderings of the
first `payload.len().min(32)` payload bytes, dash-joined. -/
def calculate_tls_fingerprint (payload : List Byte) : List Char :=
  joinDash ((payload.take (min payload.length 32)).map (fun b => decRepr b.val))

/-- First known-bad fingerprint substring (`MAL_FPS[0]`). -/
def malFp1 : List Char := "771-52393-52392-49195-49199".toList

/-- Second known-bad fingerprint substring (`MAL_FPS[1]`). -/
def malFp2 : List Char := "771-49195-49199-49196-49200".toList

/-- `PacketInspector::is_malicious_fingerprint`: `fp.contains(m)` for the two
fixed bad substrings. -/
def is_malicious_fingerprint (fp : List Char) : Bool :=
  listContainsSeq fp malFp1 || listContainsSeq fp malFp2

/-- The bounded payload sample inspected by the HTTP sub-inspector
(`&payload[..payload.len().min(2048)]` after the header-offset arithmetic of
`inspect_http`); `none` when the packet is too short to locate the payload. -/
def http_sample (p : List Byte) : Option (List Nat) :=
  match byteAt p 0 with
  | none => none
  | some b0 =>
    let ihl := (b0 &&& 15) * 4
    if p.length ≤ ihl + 20 then none
    else
      match byteAt p (ihl + 12) with
      | none => none
      | some b12 =>
        let data_offset := (b12 >>> 4) * 4
        let payload_offset := ihl + data_offset
        if p.length ≤ payload_offset then none
        else
          let payload := (p.drop payload_offset).map Fin.val
          some (payload.take (min payload.length 2048))

/-- Keyword `"password"` as bytes. -/
def kwPassword : List Nat := [112, 97, 115, 115, 119, 111, 114, 100]

/-- Keyword `"api_key"` as bytes. -/
def kwApiKey : List Nat := [97, 112, 105, 95, 107, 101, 121]

/-- Keyword `"token"` as bytes. -/
def kwToken : List Nat := [116, 111, 107, 101, 110]

/-- Keyword `"authorization"` as bytes. -/
def kwAuthorization : List Nat :=
  [97, 117, 116, 104, 111, 114, 105, 122, 97, 116, 105, 111, 110]

/-- `PacketInspector::inspect_http`.  Outer `none` models a panic,
`some none` models the Rust `None` (no decision), `some (some v)` models
`Some(v)`. -/
def inspect_http (p : List Byte) : Option (Option Nat) :=
  match byteAt p 0 with
  | none => none
  | some b0 =>
    let ihl := (b0 &&& 15) * 4
    if p.length ≤ ihl + 20 then some none
    else
      match byteAt p (ihl + 12) with
      | none => none
      | some b12 =>
        let data_offset := (b12 >>> 4) * 4
        let payload_offset := ihl + data_offset
        if p.length ≤ payload_offset then some none
        else
          let payload := (p.drop payload_offset).map Fin.val
          let sample := payload.take (min payload.length 2048)
          if bytes_contains_case_insensitive sample kwPassword ||
             bytes_contains_case_insensitive sample kwApiKey ||
             bytes_contains_case_insensitive sample kwToken ||
             bytes_contains_case_insensitive sample kwAuthorization then
            some (some 2)
          else if 1024 * 1024 < sample.length then some (some 1)
          else some none

/-- `PacketInspector::inspect_tls`. -/
def inspect_tls (p : List Byte) : Option (Option Nat) :=
  match byteAt p 0 with
  | none => none
  | some b0 =>
    let ihl := (b0 &&& 15) * 4
    if p.length ≤ ihl + 20 then some none
    else
      match byteAt p (ihl + 12) with
      | none => none
      | some b12 =>
        let data_offset := (b12 >>> 4) * 4
        let payload_offset := ihl + data_offset
        if p.length ≤ payload_offset + 5 then some none
        else
          let payload := p.drop payload_offset
          match byteAt payload 0 with
          | none => none
          | some h0 =>
            if h0 = 22 ∧ 5 < payload.length then
              if is_malicious_fingerprint (calculate_tls_fingerprint payload) then
                some (some 1)
              else some none
            else some none

/-- `PacketInspector::inspect_dns`. -/
def inspect_dns (p : List Byte) : Option Nat :=
  match byteAt p 0 with
  | none => none
  | some b0 =>
    let ihl := (b0 &&& 15) * 4
    let udp_offset := ihl
    if p.length ≤ udp_offset + 8 then some 0
    else
      let dns_offset := udp_offset + 8
      if p.length ≤ dns_offset then some 0
      else
        let query := (p.drop dns_offset).map Fin.val
        if 100 < query.length then some 3
        else
          match looks_like_base64 query with
          | none => none
          | some true => some 3
          | some false => some 0

/-- `PacketInspector::analyze_icmp`: always allow. -/
def analyze_icmp (_ins : PacketInspector) (_p : List Byte) : Option Nat :=
  some 0

/-- `PacketInspector::analyze_udp`. -/
def analyze_udp (_ins : PacketInspector) (p : List Byte) : Option Nat :=
  if p.length < 28 then some 0
  else
    match read_u16 p 22 with
    | none => none
    | some dst_port =>
      if dst_port = 53 ∨ dst_port = 5353 then inspect_dns p
      else if 512 < p.length then some 3
      else some 0

/-- `PacketInspector::analyze_tcp`.  A sub-inspector is run only behind its
port test; when the test fails this is encoded as the no-decision value
`some none` so that control falls through exactly as in the source. -/
def analyze_tcp (_ins : PacketInspector) (p : List Byte) : Option Nat :=
  if p.length < 40 then some 0
  else
    match read_u16 p 20, read_u16 p 22 with
    | some src_port, some dst_port =>
      if is_known_c2_port dst_port then some 1
      else
        match (if src_port = 80 ∨ dst_port = 80 then inspect_http p else some none) with
        | none => none
        | some (some a) => some a
        | some none =>
          match (if src_port = 443 ∨ dst_port = 443 then inspect_tls p else some none) with
          | none => none
          | some (some a) => some a
          | some none => some 0
    | _, _ => none

/-- `PacketInspector::analyze_ipv6`: simplified, always allow. -/
def analyze_ipv6 (_ins : PacketInspector) (_p : List Byte) : Option Nat :=
  some 0

/-- `PacketInspector::analyze_ipv4`: threat-IP check first, then dispatch on
the protocol byte. -/
def analyze_ipv4 (ins : PacketInspector) (p : List Byte) : Option Nat :=
  if p.length < 20 then some 0
  else
    match byteAt p 9, dst_ip p with
    | some protocol, some dst =>
      if dst ∈ ins.threat_ips then some 1
      else
        match protocol with
        | 6 => analyze_tcp ins p
        | 17 => analyze_udp ins p
        | 1 => analyze_icmp ins p
        | _ => some 0
    | _, _ => none

/-- `PacketInspector::analyze`: the packet inspector entry point. -/
def analyze (ins : PacketInspector) (p : List Byte) : Option Nat :=
  if p.length < 20 then some 0
  else
    match byteAt p 0 with
    | none => none
    | some b0 =>
      match (b0 >>> 4) &&& 15 with
      | 4 => analyze_ipv4 ins p
      | 6 => analyze_ipv6 ins p
      | _ => some 0

/-! ### File / malware scanner (`scanner.rs`) -/

/-- `ScanResult`.  Wall-clock elapsed time is external to the model;
`scan_time_ms` is fixed to `0`. -/
structure ScanResult where
  file_path : String
  is_malicious : Bool
  threat_name : Option String
  confidence : ℚ
  scan_time_ms : Nat
deriving DecidableEq

/-- `scan_with_signatures`: first store entry whose byte pattern occurs in
the content, at confidence 0.95.  The store
(global `MALWARE_SIGNATURES`) is a parameter, as a list in its iteration
order. -/
def scan_with_signatures (sigs : List (String × List Byte))
    (content : List Byte) : Option (String × ℚ) :=
  (sigs.find? (fun kv => listContainsSeq content kv.2)).map
    (fun kv => (kv.1, (95 : ℚ) / 100))

/-- `content.chunks(n)` for `n > 0`: successive slices of length `n` (the
last one possibly shorter). -/
def chunksOf (n : Nat) : List Byte → List (List Byte)
  | [] => []
  | a :: rest => (a :: rest).take n :: chunksOf n (rest.drop (n - 1))
  termination_by l => l.length
  decreasing_by simp [List.length_drop]; omega

/-- `calculate_entropy`: Shannon entropy in bits per byte,
`-Σ p_i · log2 p_i` over byte values with positive count, 0 for empty
input.  The `f64` arithmetic is modelled over `ℝ`. -/
noncomputable def calculate_entropy (data : List Byte) : ℝ :=
  if data.isEmpty then 0
  else
    ∑ i : Byte,
      if 0 < data.count i then
        -((data.count i : ℝ) / data.length *
          Real.logb 2 ((data.count i : ℝ) / data.length))
      else 0

/-- The fixed suspicious command names of `perform_heuristic_analysis`. -/
def suspicious_strings : List String :=
  ["cmd.exe", "powershell.exe", "net user", "reg add", "schtasks",
   "bitsadmin", "certutil", "mshta", "rundll32", "wscript", "cscript"]

/-- The two fixed packer signatures (UPX markers). -/
def packer_signatures : List (List Byte) :=
  [[96, 232, 0, 0, 0, 0], [77, 90, 144, 0, 3, 0]]

open Classical in
/-- `perform_heuristic_analysis`.  `lossy` stands for the external
`String::from_utf8_lossy` decoder; `String::contains` is contiguous
subsequence search on the characters. -/
noncomputable def perform_heuristic_analysis (lossy : List Byte → String)
    (content : List Byte) : List (String × ℚ) :=
  let content_str := lossy content
  let string_findings :=
    (suspicious_strings.filter
        (fun s => listContainsSeq content_str.toList s.toList)).map
      (fun s => ("SUSPICIOUS_COMMAND_" ++ s, (7 : ℚ) / 10))
  let entropy_findings :=
    if 1024 < content.length then
      let high_entropy_count :=
        ((chunksOf 256 content).map
            (fun chunk => if (7.5 : ℝ) < calculate_entropy chunk then (1 : Nat) else 0)).sum
      if content.length / 1024 < high_entropy_count then
        [("HIGH_ENTROPY_CONTENT", (6 : ℚ) / 10)]
      else []
    else []
  let packer_findings :=
    (packer_signatures.enum.filter
        (fun iv => listContainsSeq content iv.2)).map
      (fun iv => ("PACKER_DETECTED_" ++ toString iv.1, (8 : ℚ) / 10))
  string_findings ++ entropy_findings ++ packer_findings

open Classical in
/-- `analyze_entropy`: whole-file normalized entropy mapped to a coarse
confidence in `{0, 0.5, 0.9}`. -/
noncomputable def analyze_entropy (content : List Byte) : ℚ :=
  if content.length < 256 then 0
  else
    let entropy := calculate_entropy content
    let normalized_entropy := entropy / 8
    if (0.8 : ℝ) < normalized_entropy then (9 : ℚ) / 10
    else if (0.6 : ℝ) < normalized_entropy then (5 : ℚ) / 10
    else 0

/-- `combine_scan_results`: signature result, then each heuristic finding
under a strictly-greater replacement rule, then the entropy score, then the
0.5 threshold gate.  The accumulator is
(max confidence, threat name, malicious flag). -/
def combine_scan_results (signature_result : Option (String × ℚ))
    (heuristic_results : List (String × ℚ)) (entropy_score : ℚ) :
    Bool × Option String × ℚ :=
  let init : ℚ × Option String × Bool :=
    match signature_result with
    | some nc => (max 0 nc.2, some nc.1, true)
    | none => (0, none, false)
  let fused := heuristic_results.foldl
    (fun acc nc =>
      if acc.1 < nc.2 then
        (nc.2, if acc.2.1.isNone then some nc.1 else acc.2.1, true)
      else acc)
    init
  let withEntropy :=
    if fused.1 < entropy_score then
      (entropy_score,
       if fused.2.1.isNone then some "HIGH_ENTROPY_SUSPICIOUS" else fused.2.1,
       true)
    else fused
  if (1 : ℚ) / 2 ≤ withEntropy.1 then (true, withEntropy.2.1, withEntropy.1)
  else (false, none, withEntropy.1)

/-- The filesystem, as consumed by `scan_file_internal`: `Path::exists` and
`fs::read` (the latter failing with an I/O error). -/
structure FileSystem where
  pathExists : String → Bool
  readFile : String → Except String (List Byte)

/-- `scan_file_internal`: explicit `FILE_NOT_FOUND` result for a missing
path, propagated I/O error for an unreadable file, otherwise the full
signature → heuristic → entropy → fusion pipeline. -/
noncomputable def scan_file_internal (fs : FileSystem)
    (sigs : List (String × List Byte)) (lossy : List Byte → String)
    (file_path : String) : Except String ScanResult :=
  if fs.pathExists file_path = false then
    .ok { file_path := file_path, is_malicious := false,
          threat_name := some "FILE_NOT_FOUND", confidence := 0,
          scan_time_ms := 0 }
  else
    match fs.readFile file_path with
    | .error e => .error e
    | .ok content =>
      let signature_result := scan_with_signatures sigs content
      let heuristic_result := perform_heuristic_analysis lossy content
      let entropy_result := analyze_entropy content
      let r := combine_scan_results signature_result heuristic_result entropy_result
      .ok { file_path := file_path, is_malicious := r.1,
            threat_name := r.2.1, confidence := r.2.2, scan_time_ms := 0 }

/-- Last binding of key `k` in an association list: the value that survives
when the list is inserted left to right into a map.  Specification
vocabulary for `hypervisor_update_signatures`. -/
def lookupLast (m : List (String × List Byte)) (k : String) :
    Option (List Byte) :=
  match m with
  | [] => none
  | kv :: t =>
    match lookupLast t k with
    | some v => some v
    | none => if kv.1 = k then some kv.2 else none

/-- `HashMap::extend`: insert every incoming entry, overwriting an existing
binding of the same key.  The store is modelled as its lookup function. -/
def extendStore (store : String → Option (List Byte))
    (l : List (String × List Byte)) : String → Option (List Byte) :=
  l.foldl (fun s kv => fun k => if kv.1 = k then some kv.2 else s k) store

/-- `hypervisor_update_signatures`.  The UTF-8 decoding and serde JSON
parsing of the payload are external; `parsed` is their combined outcome
(`none` for either failure, in which case the Rust code returns `-1` before
touching the store). -/
def hypervisor_update_signatures
    (parsed : Option (List (String × List Byte)))
    (store : String → Option (List Byte)) :
    Int × (String → Option (List Byte)) :=
  match parsed with
  | none => (-1, store)
  | some new_signatures => (0, extendStore store new_signatures)

/-! ### Dashless-run bookkeeping for the TLS fingerprint argument -/

/-- `noRun k l` holds when the leading dashless run of `l` has length at
most `k` and every dashless run after a `'-'` has length at most 3. -/
def noRun (k : Nat) (l : List Char) : Bool :=
  match l with
  | [] => true
  | c :: rest =>
    if c = '-' then noRun 3 rest
    else decide (k ≠ 0) && noRun (k - 1) rest

/-- Filesystem on which no path exists. -/
def fsAbsent : FileSystem := ⟨fun _ => false, fun _ => .error "io"⟩

/-- Filesystem on which every path exists but no file is readable. -/
def fsUnreadable : FileSystem := ⟨fun _ => true, fun _ => .error "io"⟩

end SecurityAndroid

namespace SecurityAndroid

/-! ### Fusion: threshold gate and monotonicity (claims C2, C8) -/

theorem foldl_heuristics_fst (l : List (String × ℚ)) (acc : ℚ × Option String × Bool) :
    (l.foldl
      (fun acc nc =>
        if acc.1 < nc.2 then
          (nc.2, if acc.2.1.isNone then some nc.1 else acc.2.1, true)
        else acc) acc).1 =
    l.foldl (fun m nc => max m nc.2) acc.1 := by
  induction l generalizing acc with
  | nil => rfl
  | cons a t ih =>
    simp only [List.foldl_cons]
    rw [ih]
    congr 1
    rcases lt_or_le acc.1 a.2 with h | h
    · simp [if_pos h, max_eq_right h.le]
    · simp [if_neg (not_lt.mpr h), max_eq_left h]

theorem gate_conf (c : ℚ) (t : Option String) :
    (if (1 : ℚ) / 2 ≤ c then ((true, t, c) : Bool × Option String × ℚ)
     else (false, none, c)).2.2 = c := by
  split_ifs <;> rfl

theorem estep_fst (a : ℚ × Option String × Bool) (ent : ℚ) (t : Option String) :
    (if a.1 < ent then (ent, t, true) else a).1 = max a.1 ent := by
  split_ifs with h
  · exact (max_eq_right h.le).symm
  · exact (max_eq_left (not_lt.mp h)).symm

theorem combine_shape (sig : Option (String × ℚ)) (heur : List (String × ℚ)) (ent : ℚ) :
    ∃ x : ℚ × Option String × Bool,
      combine_scan_results sig heur ent =
        if (1 : ℚ) / 2 ≤ x.1 then (true, x.2.1, x.1) else (false, none, x.1) := by
  unfold combine_scan_results
  exact ⟨_, rfl⟩

theorem combine_conf_eq (sig : Option (String × ℚ)) (heur : List (String × ℚ)) (ent : ℚ) :
    (combine_scan_results sig heur ent).2.2 =
      max (heur.foldl (fun m nc => max m nc.2)
            (match sig with | some nc => max 0 nc.2 | none => 0)) ent := by
  rcases sig with _ | nc <;>
    (unfold combine_scan_results;
     simp only [gate_conf];
     simp only [estep_fst];
     simp only [foldl_heuristics_fst])

/-- Claim C2: the fused decision is gated purely on the 0.5 threshold:
`is_malicious` is true iff the fused confidence is at least 1/2 (so exactly
1/2 gives `true` and 0.4999 gives `false`), and below the threshold the
returned threat name is `none` regardless of earlier assignment. -/
theorem combine_threshold_gate :
    (∀ sig heur ent,
      (((combine_scan_results sig heur ent).1 = true) ↔
        (1 : ℚ) / 2 ≤ (combine_scan_results sig heur ent).2.2) ∧
      ((combine_scan_results sig heur ent).2.2 < (1 : ℚ) / 2 →
        (combine_scan_results sig heur ent).2.1 = none)) ∧
    (combine_scan_results none [("boundary", (1 : ℚ) / 2)] 0).1 = true ∧
    (combine_scan_results none [("boundary", (4999 : ℚ) / 10000)] 0).1 = false := by
  refine ⟨fun sig heur ent => ?_, by norm_num [combine_scan_results],
    by norm_num [combine_scan_results]⟩
  obtain ⟨x, hx⟩ := combine_shape sig heur ent
  rw [hx]
  constructor
  · split_ifs with h
    · exact iff_of_true rfl h
    · exact iff_of_false (by simp) h
  · split_ifs with h <;> intro hlt
    · exact absurd h (not_le.mpr hlt)
    · rfl

/-- Claim C2 witness: at a concrete sub-threshold input the hypothesis of the
name-clearing clause holds and the threat name is cleared. -/
theorem combine_threshold_gate_witness :
    (combine_scan_results (some ("t", (2 : ℚ) / 10)) [] 0).2.2 < (1 : ℚ) / 2 ∧
    (combine_scan_results (some ("t", (2 : ℚ) / 10)) [] 0).2.1 = none :=
  ⟨by norm_num [combine_scan_results],
   ((combine_threshold_gate.1 (some ("t", (2 : ℚ) / 10)) [] 0).2
     (by norm_num [combine_scan_results]))⟩

/-- Claim C8: fusion is monotonic — appending a heuristic finding of
confidence `C` to a scan whose fused maximum is strictly below `C` raises
the reported fused confidence, strictly, to exactly `C`. -/
theorem fusion_monotonic :
    ∀ sig heur ent name C,
      (combine_scan_results sig heur ent).2.2 < C →
      (combine_scan_results sig (heur ++ [(name, C)]) ent).2.2 = C ∧
      (combine_scan_results sig heur ent).2.2 <
        (combine_scan_results sig (heur ++ [(name, C)]) ent).2.2 := by
  intro sig heur ent name C h
  have h1 := combine_conf_eq sig heur ent
  have h2 := combine_conf_eq sig (heur ++ [(name, C)]) ent
  rw [List.foldl_append, List.foldl_cons, List.foldl_nil] at h2
  rw [sup_right_comm, ← h1] at h2
  have hc : (combine_scan_results sig (heur ++ [(name, C)]) ent).2.2 = C := by
    rw [h2]; exact sup_eq_right.mpr h.le
  exact ⟨hc, by rw [hc]; exact h⟩

/-- Claim C8 witness: a concrete scan with fused confidence 0 gains a
finding at 3/4 and reports exactly 3/4. -/
theorem fusion_monotonic_witness :
    (combine_scan_results none [] 0).2.2 < (3 : ℚ) / 4 ∧
    (combine_scan_results none ([] ++ [("f", (3 : ℚ) / 4)]) 0).2.2 = (3 : ℚ) / 4 :=
  ⟨by norm_num [combine_scan_results],
   (fusion_monotonic none [] 0 "f" ((3 : ℚ) / 4)
     (by norm_num [combine_scan_results])).1⟩

/-! ### Signature-store update (claim C6) -/

theorem extendStore_lookup (l : List (String × List Byte))
    (store : String → Option (List Byte)) (k : String) :
    extendStore store l k =
      match lookupLast l k with
      | some v => some v
      | none => store k := by
  induction l generalizing store with
  | nil => rfl
  | cons kv t ih =>
    show extendStore (fun k' => if kv.1 = k' then some kv.2 else store k') t k = _
    rw [ih]
    cases h : lookupLast t k with
    | some v => simp [lookupLast, h]
    | none =>
      simp only [lookupLast, h]
      by_cases hk : kv.1 = k <;> simp [hk]

/-- Claim C6: a malformed update payload is rejected with `-1` and leaves the
store exactly unchanged; a well-formed one returns `0` and the new store is
the union of the old store with the incoming map, incoming entries (their
last binding) overwriting same-named existing entries and all other entries
preserved. -/
theorem update_signatures_spec :
    ∀ parsed store,
      (parsed = none → hypervisor_update_signatures parsed store = (-1, store)) ∧
      (∀ m, parsed = some m →
        (hypervisor_update_signatures parsed store).1 = 0 ∧
        ∀ k, (hypervisor_update_signatures parsed store).2 k =
          match lookupLast m k with
          | some v => some v
          | none => store k) := by
  intro parsed store
  constructor
  · rintro rfl; rfl
  · rintro m rfl
    exact ⟨rfl, fun k => extendStore_lookup m store k⟩

/-- Claim C6 witness: a failed parse leaves a concrete store untouched; a
successful parse of one entry returns success and the entry is retrievable
while other keys still miss. -/
theorem update_signatures_spec_witness :
    hypervisor_update_signatures none (fun _ => none) = (-1, fun _ => none) ∧
    (hypervisor_update_signatures (some [("a", [1])]) (fun _ => none)).1 = 0 ∧
    (hypervisor_update_signatures (some [("a", [1])]) (fun _ => none)).2 "a" = some [1] := by
  refine ⟨(update_signatures_spec none _).1 rfl,
          ((update_signatures_spec (some [("a", [1])]) (fun _ => none)).2 _ rfl).1, ?_⟩
  rw [((update_signatures_spec (some [("a", [1])]) (fun _ => none)).2 _ rfl).2 "a"]
  rfl

/-! ### File scan: missing and unreadable files (claim C5) -/

/-- Claim C5: scanning a non-existent path yields a successful result with
the `FILE_NOT_FOUND` sentinel, zero confidence and `is_malicious = false`;
an existing but unreadable file instead propagates the I/O error, which is
distinct from every completed result. -/
theorem scan_file_contract :
    ∀ fs sigs lossy path,
      (fs.pathExists path = false →
        scan_file_internal fs sigs lossy path = .ok
          { file_path := path, is_malicious := false,
            threat_name := some "FILE_NOT_FOUND", confidence := 0,
            scan_time_ms := 0 }) ∧
      (∀ e, fs.pathExists path = true → fs.readFile path = .error e →
        scan_file_internal fs sigs lossy path = .error e) ∧
      (∀ e (r : ScanResult), fs.pathExists path = true →
        fs.readFile path = .error e →
        scan_file_internal fs sigs lossy path ≠ .ok r) := by
  intro fs sigs lossy path
  refine ⟨fun h => ?_, fun e hex he => ?_, fun e r hex he => ?_⟩
  · simp [scan_file_internal, h]
  · simp [scan_file_internal, hex, he]
  · simp [scan_file_internal, hex, he]

/-! ### Packet inspector: basic access lemmas -/

theorem byteAt_eq (p : List Byte) (i : Nat) (h : i < p.length) :
    byteAt p i = some (p.get ⟨i, h⟩).val := by
  rw [byteAt, List.get?_eq_get h]; rfl

theorem byteAt_total (p : List Byte) (i : Nat) (h : i < p.length) :
    ∃ b, byteAt p i = some b :=
  ⟨_, byteAt_eq p i h⟩

theorem read_u16_total (p : List Byte) (i : Nat) (h : i + 1 < p.length) :
    ∃ v, read_u16 p i = some v := by
  obtain ⟨a, ha⟩ := byteAt_total p i (by omega)
  obtain ⟨b, hb⟩ := byteAt_total p (i + 1) h
  refine ⟨a * 256 + b, ?_⟩
  rw [read_u16, ha, hb]

theorem dst_ip_total (p : List Byte) (h : 19 < p.length) :
    ∃ d, dst_ip p = some d := by
  obtain ⟨a, ha⟩ := byteAt_total p 16 (by omega)
  obtain ⟨b, hb⟩ := byteAt_total p 17 (by omega)
  obtain ⟨c, hc⟩ := byteAt_total p 18 (by omega)
  obtain ⟨d, hd⟩ := byteAt_total p 19 h
  refine ⟨a * 16777216 + b * 65536 + c * 256 + d, ?_⟩
  rw [dst_ip, ha, hb, hc, hd]

/-! ### Claim C1: threat destination short-circuits everything -/

/-- Claim C1: every packet of at least 20 bytes whose version nibble is 4 and
whose big-endian destination address (bytes 16..19) is in the threat-IP set
is classified `MaliciousDestination` (code 1), for any protocol byte and any
payload: the destination check precedes all protocol dispatch. -/
theorem malicious_destination_short_circuit
    (ins : PacketInspector) (p : List Byte) (b0 d : Nat)
    (hlen : 20 ≤ p.length)
    (h0 : byteAt p 0 = some b0)
    (hver : (b0 >>> 4) &&& 15 = 4)
    (hd : dst_ip p = some d)
    (hmem : d ∈ ins.threat_ips) :
    analyze ins p = some 1 := by
  obtain ⟨proto, h9⟩ := byteAt_total p 9 (by omega)
  have h20 : ¬ p.length < 20 := by omega
  unfold analyze analyze_ipv4
  simp only [h20, if_false, h0, hver, h9, hd, if_pos hmem]

/-- Claim C1 witness: a concrete 20-byte IPv4 packet with protocol 0 and
destination 1.2.3.4 in the threat set. -/
theorem malicious_destination_short_circuit_witness :
    analyze ⟨[16909060]⟩
      [69, 0, 0, 0, 0, 0, 0, 0, 0, 0, 0, 0, 0, 0, 0, 0, 1, 2, 3, 4] = some 1 :=
  malicious_destination_short_circuit ⟨[16909060]⟩
    [69, 0, 0, 0, 0, 0, 0, 0, 0, 0, 0, 0, 0, 0, 0, 0, 1, 2, 3, 4]
    69 16909060 (by decide) (by decide) (by decide) (by decide) (by decide)

/-! ### Claim C7: UDP on a non-DNS port -/

/-- Claim C7: an IPv4 UDP packet of at least 28 bytes, destination not in the
threat set, whose destination port (bytes 22..23) is neither 53 nor 5353, is
classified `SuspiciousLargeTransfer` (code 3) exactly when the total packet
length exceeds 512 bytes, and `Allow` (code 0) otherwise. -/
theorem udp_large_transfer_gate
    (ins : PacketInspector) (p : List Byte) (b0 d dp : Nat)
    (hlen : 28 ≤ p.length)
    (h0 : byteAt p 0 = some b0)
    (hver : (b0 >>> 4) &&& 15 = 4)
    (h9 : byteAt p 9 = some 17)
    (hd : dst_ip p = some d)
    (hmem : d ∉ ins.threat_ips)
    (hdp : read_u16 p 22 = some dp)
    (h53 : dp ≠ 53) (h5353 : dp ≠ 5353) :
    analyze ins p = some (if 512 < p.length then 3 else 0) := by
  have h20 : ¬ p.length < 20 := by omega
  have h28 : ¬ p.length < 28 := by omega
  have hport : ¬ (dp = 53 ∨ dp = 5353) := by tauto
  unfold analyze analyze_ipv4 analyze_udp
  simp only [h20, if_false, h0, hver, h9, hd, if_neg hmem, h28, hdp,
    if_neg hport]
  by_cases h512 : 512 < p.length <;> simp [h512]

/-- Claim C7 witness: a concrete 28-byte IPv4 UDP packet on port 4000 is
allowed (28 ≤ 512 bytes). -/
theorem udp_large_transfer_gate_witness :
    analyze ⟨[]⟩
      [69, 0, 0, 0, 0, 0, 0, 0, 0, 17, 0, 0, 0, 0, 0, 0, 1, 2, 3, 4,
       0, 0, 15, 160, 0, 0, 0, 0] = some 0 := by
  have h := udp_large_transfer_gate ⟨[]⟩
    [69, 0, 0, 0, 0, 0, 0, 0, 0, 17, 0, 0, 0, 0, 0, 0, 1, 2, 3, 4,
     0, 0, 15, 160, 0, 0, 0, 0]
    69 16909060 4000 (by decide) (by decide) (by decide) (by decide)
    (by decide) (by decide) (by decide) (by decide) (by decide)
  simpa using h

/-! ### Claim C3: HTTP sub-inspector without keywords -/

theorem http_sample_length_le (p : List Byte) (s : List Nat)
    (h : http_sample p = some s) : s.length ≤ 2048 := by
  cases h0 : byteAt p 0 with
  | none => simp [http_sample, h0] at h
  | some b0 =>
    simp only [http_sample, h0] at h
    split at h
    · exact absurd h (by simp)
    · split at h
      · exact absurd h (by simp)
      · split at h
        · exact absurd h (by simp)
        · injection h with h'
          rw [← h']
          rw [List.length_take]
          exact le_trans (Nat.min_le_left _ _) (Nat.min_le_right _ _)

/-- Claim C3: for an IPv4 TCP packet on port 80 (reaching the HTTP
sub-inspector: destination port not in the C2 set, neither port 443) whose
located payload sample contains none of the four sensitive keywords, the
sub-inspector makes no decision and the packet falls through to `Allow`;
the `SuspiciousLargeTransfer` clause for a sample exceeding 1 MiB holds
vacuously (the inspected sample never exceeds 2048 bytes). -/
theorem http_no_keyword_fall_through
    (ins : PacketInspector) (p : List Byte) (b0 d sp dp : Nat)
    (hlen : 40 ≤ p.length)
    (h0 : byteAt p 0 = some b0)
    (hver : (b0 >>> 4) &&& 15 = 4)
    (h9 : byteAt p 9 = some 6)
    (hd : dst_ip p = some d)
    (hmem : d ∉ ins.threat_ips)
    (hsp : read_u16 p 20 = some sp)
    (hdp : read_u16 p 22 = some dp)
    (hc2 : is_known_c2_port dp = false)
    (h80 : sp = 80 ∨ dp = 80)
    (hs443 : sp ≠ 443) (hd443 : dp ≠ 443)
    (hkw : ∀ s, http_sample p = some s →
      bytes_contains_case_insensitive s kwPassword = false ∧
      bytes_contains_case_insensitive s kwApiKey = false ∧
      bytes_contains_case_insensitive s kwToken = false ∧
      bytes_contains_case_insensitive s kwAuthorization = false) :
    (∀ s, http_sample p = some s → 1048576 < s.length → analyze ins p = some 3) ∧
    inspect_http p = some none ∧
    analyze ins p = some 0 := by
  have hhttp : inspect_http p = some none := by
    by_cases g1 : p.length ≤ (b0 &&& 15) * 4 + 20
    · simp only [inspect_http, h0, if_pos g1]
    · obtain ⟨b12, h12⟩ := byteAt_total p ((b0 &&& 15) * 4 + 12) (by omega)
      by_cases g2 : p.length ≤ (b0 &&& 15) * 4 + (b12 >>> 4) * 4
      · simp only [inspect_http, h0, if_neg g1, h12, if_pos g2]
      · have hs : http_sample p =
            some (((p.drop ((b0 &&& 15) * 4 + (b12 >>> 4) * 4)).map Fin.val).take
              (min ((p.drop ((b0 &&& 15) * 4 + (b12 >>> 4) * 4)).map Fin.val).length 2048)) := by
          simp only [http_sample, h0, if_neg g1, h12, if_neg g2]
        obtain ⟨k1, k2, k3, k4⟩ := hkw _ hs
        have hlenS := http_sample_length_le p _ hs
        have hcond : ¬ 1024 * 1024 <
            (((p.drop ((b0 &&& 15) * 4 + (b12 >>> 4) * 4)).map Fin.val).take
              (min ((p.drop ((b0 &&& 15) * 4 + (b12 >>> 4) * 4)).map Fin.val).length
                2048)).length := by omega
        simp only [inspect_http, h0, if_neg g1, h12, if_neg g2, k1, k2, k3, k4,
          Bool.or_self, Bool.false_or, if_false, if_neg hcond]
        rfl
  have h20 : ¬ p.length < 20 := by omega
  have h40 : ¬ p.length < 40 := by omega
  have hana : analyze ins p = some 0 := by
    unfold analyze analyze_ipv4 analyze_tcp
    simp only [h20, if_false, h0, hver, h9, hd, if_neg hmem, h40, hsp, hdp, hc2,
      Bool.false_eq_true, if_false, if_pos h80, hhttp]
    rw [if_neg (show ¬ (sp = 443 ∨ dp = 443) by tauto)]
  refine ⟨fun s hs hbig => absurd hbig ?_, hhttp, hana⟩
  have := http_sample_length_le p s hs
  omega

/-- Claim C3 witness: a concrete 60-byte IPv4 TCP packet from port 12345 to
port 80 whose 20-byte payload is `AAAA…` (no keywords) is allowed. -/
theorem http_no_keyword_fall_through_witness :
    inspect_http
      ([69, 0, 0, 0, 0, 0, 0, 0, 0, 6, 0, 0, 0, 0, 0, 0, 10, 0, 0, 1,
        48, 57, 0, 80, 0, 0, 0, 0, 0, 0, 0, 0, 80, 0, 0, 0, 0, 0, 0, 0] ++
        List.replicate 20 (65 : Byte)) = some none ∧
    analyze ⟨[]⟩
      ([69, 0, 0, 0, 0, 0, 0, 0, 0, 6, 0, 0, 0, 0, 0, 0, 10, 0, 0, 1,
        48, 57, 0, 80, 0, 0, 0, 0, 0, 0, 0, 0, 80, 0, 0, 0, 0, 0, 0, 0] ++
        List.replicate 20 (65 : Byte)) = some 0 := by
  have h := http_no_keyword_fall_through ⟨[]⟩
    ([69, 0, 0, 0, 0, 0, 0, 0, 0, 6, 0, 0, 0, 0, 0, 0, 10, 0, 0, 1,
      48, 57, 0, 80, 0, 0, 0, 0, 0, 0, 0, 0, 80, 0, 0, 0, 0, 0, 0, 0] ++
      List.replicate 20 (65 : Byte))
    69 167772161 12345 80 (by decide) (by decide) (by decide) (by decide)
    (by decide) (by decide) (by decide) (by decide) (by decide)
    (by decide) (by decide) (by decide)
    (by intro s hs
        rw [show http_sample
          ([69, 0, 0, 0, 0, 0, 0, 0, 0, 6, 0, 0, 0, 0, 0, 0, 10, 0, 0, 1,
            48, 57, 0, 80, 0, 0, 0, 0, 0, 0, 0, 0, 80, 0, 0, 0, 0, 0, 0, 0] ++
            List.replicate 20 (65 : Byte)) = some (List.replicate 20 65) from by decide] at hs
        injection hs with hs'
        subst hs'
        exact ⟨by decide, by decide, by decide, by decide⟩)
  exact ⟨h.2.1, h.2.2⟩

/-! ### Claim C4: totality and fail-open behaviour of `analyze` -/

theorem inspect_http_total (p : List Byte) (hp : 0 < p.length) :
    ∃ r, inspect_http p = some r := by
  rw [← Option.isSome_iff_exists]
  obtain ⟨b0, h0⟩ := byteAt_total p 0 hp
  by_cases g1 : p.length ≤ (b0 &&& 15) * 4 + 20
  · simp only [inspect_http, h0, if_pos g1, Option.isSome_some]
  · obtain ⟨b12, h12⟩ := byteAt_total p ((b0 &&& 15) * 4 + 12) (by omega)
    by_cases g2 : p.length ≤ (b0 &&& 15) * 4 + (b12 >>> 4) * 4
    · simp only [inspect_http, h0, if_neg g1, h12, if_pos g2, Option.isSome_some]
    · simp only [inspect_http, h0, if_neg g1, h12, if_neg g2]
      split
      · rfl
      · split <;> rfl

theorem inspect_tls_total (p : List Byte) (hp : 0 < p.length) :
    ∃ r, inspect_tls p = some r := by
  rw [← Option.isSome_iff_exists]
  obtain ⟨b0, h0⟩ := byteAt_total p 0 hp
  by_cases g1 : p.length ≤ (b0 &&& 15) * 4 + 20
  · simp only [inspect_tls, h0, if_pos g1, Option.isSome_some]
  · obtain ⟨b12, h12⟩ := byteAt_total p ((b0 &&& 15) * 4 + 12) (by omega)
    by_cases g2 : p.length ≤ (b0 &&& 15) * 4 + (b12 >>> 4) * 4 + 5
    · simp only [inspect_tls, h0, if_neg g1, h12, if_pos g2, Option.isSome_some]
    · obtain ⟨hb, hh⟩ := byteAt_total
        (p.drop ((b0 &&& 15) * 4 + (b12 >>> 4) * 4)) 0
        (by rw [List.length_drop]; omega)
      simp only [inspect_tls, h0, if_neg g1, h12, if_neg g2, hh]
      split
      · split <;> rfl
      · rfl

theorem inspect_dns_total (p : List Byte) (hp : 0 < p.length) :
    ∃ r, inspect_dns p = some r := by
  rw [← Option.isSome_iff_exists]
  obtain ⟨b0, h0⟩ := byteAt_total p 0 hp
  by_cases g1 : p.length ≤ (b0 &&& 15) * 4 + 8
  · simp only [inspect_dns, h0, if_pos g1, Option.isSome_some]
  · by_cases g2 : 100 < ((p.drop ((b0 &&& 15) * 4 + 8)).map Fin.val).length
    · simp only [inspect_dns, h0, if_neg g1, if_pos g2, Option.isSome_some]
    · have hnz : ¬ min ((p.drop ((b0 &&& 15) * 4 + 8)).map Fin.val).length 128 = 0 := by
        rw [List.length_map, List.length_drop]; omega
      have hq : looks_like_base64 ((p.drop ((b0 &&& 15) * 4 + 8)).map Fin.val) =
          some (decide (90 <
            (((p.drop ((b0 &&& 15) * 4 + 8)).map Fin.val).take
              (min ((p.drop ((b0 &&& 15) * 4 + 8)).map Fin.val).length 128)).countP isB64Char *
              100 / min ((p.drop ((b0 &&& 15) * 4 + 8)).map Fin.val).length 128)) := by
        simp only [looks_like_base64, if_neg hnz]
      obtain ⟨bv, hq2⟩ : ∃ bv : Bool,
          looks_like_base64 ((p.drop ((b0 &&& 15) * 4 + 8)).map Fin.val) =
            some bv := ⟨_, hq⟩
      cases bv <;>
        simp only [inspect_dns, h0, if_neg g1, if_neg g2, hq2, Option.isSome_some]

theorem analyze_tcp_total (ins : PacketInspector) (p : List Byte) :
    ∃ v, analyze_tcp ins p = some v := by
  by_cases h40 : p.length < 40
  · exact ⟨0, by simp [analyze_tcp, h40]⟩
  · obtain ⟨sp, hsp⟩ := read_u16_total p 20 (by omega)
    obtain ⟨dp, hdp⟩ := read_u16_total p 22 (by omega)
    obtain ⟨rh, hrh⟩ := inspect_http_total p (by omega)
    obtain ⟨rt, hrt⟩ := inspect_tls_total p (by omega)
    rw [← Option.isSome_iff_exists]
    simp only [analyze_tcp, if_neg h40, hsp, hdp]
    by_cases hc2 : is_known_c2_port dp = true
    · simp [hc2]
    · simp only [Bool.not_eq_true] at hc2
      simp only [hc2, Bool.false_eq_true, if_false]
      by_cases h80 : sp = 80 ∨ dp = 80
      all_goals by_cases h443 : sp = 443 ∨ dp = 443
      all_goals simp only [if_pos, if_neg, h80, h443, ite_true, ite_false, hrh, hrt]
      all_goals cases rh <;> cases rt <;> simp

theorem analyze_udp_total (ins : PacketInspector) (p : List Byte) :
    ∃ v, analyze_udp ins p = some v := by
  by_cases h28 : p.length < 28
  · exact ⟨0, by simp [analyze_udp, h28]⟩
  · obtain ⟨dp, hdp⟩ := read_u16_total p 22 (by omega)
    obtain ⟨r, hr⟩ := inspect_dns_total p (by omega)
    rw [← Option.isSome_iff_exists]
    simp only [analyze_udp, if_neg h28, hdp]
    by_cases hport : dp = 53 ∨ dp = 5353
    · rw [if_pos hport, hr]; rfl
    · rw [if_neg hport]; split <;> rfl

theorem analyze_ipv4_total (ins : PacketInspector) (p : List Byte) :
    ∃ v, analyze_ipv4 ins p = some v := by
  by_cases h20 : p.length < 20
  · exact ⟨0, by simp [analyze_ipv4, h20]⟩
  · obtain ⟨proto, h9⟩ := byteAt_total p 9 (by omega)
    obtain ⟨d, hd⟩ := dst_ip_total p (by omega)
    rw [← Option.isSome_iff_exists]
    simp only [analyze_ipv4, if_neg h20, h9, hd]
    by_cases hmem : d ∈ ins.threat_ips
    · simp [hmem]
    · simp only [if_neg hmem]
      split
      · obtain ⟨v, hv⟩ := analyze_tcp_total ins p; rw [hv]; rfl
      · obtain ⟨v, hv⟩ := analyze_udp_total ins p; rw [hv]; rfl
      · rfl
      · rfl

theorem analyze_total (ins : PacketInspector) (p : List Byte) :
    ∃ v, analyze ins p = some v := by
  by_cases h20 : p.length < 20
  · exact ⟨0, by simp [analyze, h20]⟩
  · obtain ⟨b0, h0⟩ := byteAt_total p 0 (by omega)
    rw [← Option.isSome_iff_exists]
    simp only [analyze, if_neg h20, h0]
    split
    · obtain ⟨v, hv⟩ := analyze_ipv4_total ins p; rw [hv]; rfl
    · rfl
    · rfl

/-- Claim C4 counterexample, two concrete packets.  First: a 20-byte IPv4
packet with protocol 6 (TCP) — too short for the TCP header offsets, hence
structurally truncated — whose destination address is in the threat set is
classified `MaliciousDestination` (code 1), not `Allow` (code 0).  Second: a
60-byte IPv4 TCP packet (IHL 5, TCP data-offset nibble 15) whose payload
offset, 80, exceeds the packet length — squarely "too short for the payload
offsets" — but whose destination port is 8080, in the C2 port set, is also
classified code 1 with an empty threat set.  Both refute the claim that
every structurally truncated packet yields `Allow`. -/
theorem analyze_fail_open_cex :
    (([69, 0, 0, 0, 0, 0, 0, 0, 0, 6, 0, 0, 0, 0, 0, 0, 1, 2, 3, 4] :
      List Byte).length = 20 ∧
    byteAt [69, 0, 0, 0, 0, 0, 0, 0, 0, 6, 0, 0, 0, 0, 0, 0, 1, 2, 3, 4] 9 =
      some 6 ∧
    analyze ⟨[16909060]⟩
      [69, 0, 0, 0, 0, 0, 0, 0, 0, 6, 0, 0, 0, 0, 0, 0, 1, 2, 3, 4] = some 1 ∧
    analyze ⟨[16909060]⟩
      [69, 0, 0, 0, 0, 0, 0, 0, 0, 6, 0, 0, 0, 0, 0, 0, 1, 2, 3, 4] ≠ some 0) ∧
    (([69, 0, 0, 0, 0, 0, 0, 0, 0, 6, 0, 0, 0, 0, 0, 0, 1, 2, 3, 4,
       0, 80, 31, 144, 0, 0, 0, 0, 0, 0, 0, 0, 240, 0, 0, 0, 0, 0, 0, 0] ++
      List.replicate 20 (0 : Byte)).length = 60 ∧
    byteAt ([69, 0, 0, 0, 0, 0, 0, 0, 0, 6, 0, 0, 0, 0, 0, 0, 1, 2, 3, 4,
       0, 80, 31, 144, 0, 0, 0, 0, 0, 0, 0, 0, 240, 0, 0, 0, 0, 0, 0, 0] ++
      List.replicate 20 (0 : Byte)) 9 = some 6 ∧
    byteAt ([69, 0, 0, 0, 0, 0, 0, 0, 0, 6, 0, 0, 0, 0, 0, 0, 1, 2, 3, 4,
       0, 80, 31, 144, 0, 0, 0, 0, 0, 0, 0, 0, 240, 0, 0, 0, 0, 0, 0, 0] ++
      List.replicate 20 (0 : Byte)) 32 = some 240 ∧
    ([69, 0, 0, 0, 0, 0, 0, 0, 0, 6, 0, 0, 0, 0, 0, 0, 1, 2, 3, 4,
       0, 80, 31, 144, 0, 0, 0, 0, 0, 0, 0, 0, 240, 0, 0, 0, 0, 0, 0, 0] ++
      List.replicate 20 (0 : Byte)).length ≤ (69 &&& 15) * 4 + (240 >>> 4) * 4 ∧
    analyze ⟨[]⟩
      ([69, 0, 0, 0, 0, 0, 0, 0, 0, 6, 0, 0, 0, 0, 0, 0, 1, 2, 3, 4,
        0, 80, 31, 144, 0, 0, 0, 0, 0, 0, 0, 0, 240, 0, 0, 0, 0, 0, 0, 0] ++
       List.replicate 20 (0 : Byte)) = some 1 ∧
    analyze ⟨[]⟩
      ([69, 0, 0, 0, 0, 0, 0, 0, 0, 6, 0, 0, 0, 0, 0, 0, 1, 2, 3, 4,
        0, 80, 31, 144, 0, 0, 0, 0, 0, 0, 0, 0, 240, 0, 0, 0, 0, 0, 0, 0] ++
       List.replicate 20 (0 : Byte)) ≠ some 0) := by
  decide

/-- Claim C4 (amended): `analyze` is total — it never panics, every slice
access and arithmetic step being guarded — and every structurally invalid or
truncated packet yields `Allow`, provided (for the IPv4 cases, as the first
counterexample packet forces) its destination address is not in the
threat-IP set: packets shorter than 20 bytes; packets whose version nibble
is not 4 (including IPv6); IPv4 TCP packets shorter than 40 bytes; IPv4 UDP
packets shorter than 28 bytes; and IPv4 TCP packets of at least 40 bytes
too short for the payload offsets — no room for the TCP header after the IP
header (length ≤ IHL·4 + 20), or payload offset IHL·4 + data-offset·4 at
least the packet length — provided additionally, as the second
counterexample packet forces, that the destination port is outside the C2
port set. -/
theorem analyze_total_fail_open :
    (∀ ins (p : List Byte), ∃ v, analyze ins p = some v) ∧
    (∀ ins (p : List Byte), p.length < 20 → analyze ins p = some 0) ∧
    (∀ ins (p : List Byte) b0, byteAt p 0 = some b0 →
      (b0 >>> 4) &&& 15 ≠ 4 → analyze ins p = some 0) ∧
    (∀ ins (p : List Byte) b0 d, byteAt p 0 = some b0 →
      (b0 >>> 4) &&& 15 = 4 → byteAt p 9 = some 6 → dst_ip p = some d →
      d ∉ ins.threat_ips → p.length < 40 → analyze ins p = some 0) ∧
    (∀ ins (p : List Byte) b0 d, byteAt p 0 = some b0 →
      (b0 >>> 4) &&& 15 = 4 → byteAt p 9 = some 17 → dst_ip p = some d →
      d ∉ ins.threat_ips → p.length < 28 → analyze ins p = some 0) ∧
    (∀ ins (p : List Byte) b0 d dp, byteAt p 0 = some b0 →
      (b0 >>> 4) &&& 15 = 4 → byteAt p 9 = some 6 → dst_ip p = some d →
      d ∉ ins.threat_ips → 40 ≤ p.length → read_u16 p 22 = some dp →
      is_known_c2_port dp = false → p.length ≤ (b0 &&& 15) * 4 + 20 →
      analyze ins p = some 0) ∧
    (∀ ins (p : List Byte) b0 d dp b12, byteAt p 0 = some b0 →
      (b0 >>> 4) &&& 15 = 4 → byteAt p 9 = some 6 → dst_ip p = some d →
      d ∉ ins.threat_ips → 40 ≤ p.length → read_u16 p 22 = some dp →
      is_known_c2_port dp = false →
      byteAt p ((b0 &&& 15) * 4 + 12) = some b12 →
      p.length ≤ (b0 &&& 15) * 4 + (b12 >>> 4) * 4 →
      analyze ins p = some 0) := by
  refine ⟨analyze_total, fun ins p h20 => by simp [analyze, h20],
    ?_, ?_, ?_, ?_, ?_⟩
  · intro ins p b0 h0 hver
    by_cases h20 : p.length < 20
    · simp [analyze, h20]
    · simp only [analyze, if_neg h20, h0]
      split
      · exact absurd (by assumption) hver
      · rfl
      · rfl
  · intro ins p b0 d h0 hver h9 hd hmem h40
    by_cases h20 : p.length < 20
    · simp [analyze, h20]
    · simp only [analyze, analyze_ipv4, analyze_tcp, if_neg h20, h0, hver, h9,
        hd, if_neg hmem, if_pos h40]
  · intro ins p b0 d h0 hver h9 hd hmem h28
    by_cases h20 : p.length < 20
    · simp [analyze, h20]
    · simp only [analyze, analyze_ipv4, analyze_udp, if_neg h20, h0, hver, h9,
        hd, if_neg hmem, if_pos h28]
  · intro ins p b0 d dp h0 hver h9 hd hmem hlen hdp hc2 hshort
    have h20 : ¬ p.length < 20 := by omega
    have h40 : ¬ p.length < 40 := by omega
    obtain ⟨sp, hsp⟩ := read_u16_total p 20 (by omega)
    have hhttp : inspect_http p = some none := by
      simp only [inspect_http, h0, if_pos hshort]
    have htls : inspect_tls p = some none := by
      simp only [inspect_tls, h0, if_pos hshort]
    simp only [analyze, analyze_ipv4, analyze_tcp, if_neg h20, h0, hver, h9,
      hd, if_neg hmem, if_neg h40, hsp, hdp, hc2, Bool.false_eq_true, if_false]
    by_cases h80 : sp = 80 ∨ dp = 80
    all_goals by_cases h443 : sp = 443 ∨ dp = 443
    all_goals simp [h80, h443, hhttp, htls]
  · intro ins p b0 d dp b12 h0 hver h9 hd hmem hlen hdp hc2 h12 hoff
    have h20 : ¬ p.length < 20 := by omega
    have h40 : ¬ p.length < 40 := by omega
    obtain ⟨sp, hsp⟩ := read_u16_total p 20 (by omega)
    have hhttp : inspect_http p = some none := by
      by_cases g1 : p.length ≤ (b0 &&& 15) * 4 + 20
      · simp only [inspect_http, h0, if_pos g1]
      · simp only [inspect_http, h0, if_neg g1, h12, if_pos hoff]
    have htls : inspect_tls p = some none := by
      by_cases g1 : p.length ≤ (b0 &&& 15) * 4 + 20
      · simp only [inspect_tls, h0, if_pos g1]
      · have hoff5 : p.length ≤ (b0 &&& 15) * 4 + (b12 >>> 4) * 4 + 5 := by
          omega
        simp only [inspect_tls, h0, if_neg g1, h12, if_pos hoff5]
    simp only [analyze, analyze_ipv4, analyze_tcp, if_neg h20, h0, hver, h9,
      hd, if_neg hmem, if_neg h40, hsp, hdp, hc2, Bool.false_eq_true, if_false]
    by_cases h80 : sp = 80 ∨ dp = 80
    all_goals by_cases h443 : sp = 443 ∨ dp = 443
    all_goals simp [h80, h443, hhttp, htls]

/-- Claim C4 (amended) witness: concrete packets exercising every clause —
the empty packet, a version-5 packet, a truncated TCP packet, a truncated
UDP packet, a 40-byte TCP packet with maximal IHL (no room for the TCP
header), and a 60-byte TCP packet with data-offset nibble 15 (payload
offset 80 beyond the packet), all allowed, with no threat-set membership
and ports outside the C2 set. -/
theorem analyze_total_fail_open_witness :
    (∃ v, analyze ⟨[]⟩ [] = some v) ∧
    analyze ⟨[]⟩ [] = some 0 ∧
    analyze ⟨[]⟩
      [85, 0, 0, 0, 0, 0, 0, 0, 0, 6, 0, 0, 0, 0, 0, 0, 1, 2, 3, 4] = some 0 ∧
    analyze ⟨[]⟩
      [69, 0, 0, 0, 0, 0, 0, 0, 0, 6, 0, 0, 0, 0, 0, 0, 1, 2, 3, 4] = some 0 ∧
    analyze ⟨[]⟩
      [69, 0, 0, 0, 0, 0, 0, 0, 0, 17, 0, 0, 0, 0, 0, 0, 1, 2, 3, 4] = some 0 ∧
    analyze ⟨[]⟩
      [79, 0, 0, 0, 0, 0, 0, 0, 0, 6, 0, 0, 0, 0, 0, 0, 1, 2, 3, 4,
       0, 80, 0, 80, 0, 0, 0, 0, 0, 0, 0, 0, 80, 0, 0, 0, 0, 0, 0, 0] = some 0 ∧
    analyze ⟨[]⟩
      ([69, 0, 0, 0, 0, 0, 0, 0, 0, 6, 0, 0, 0, 0, 0, 0, 1, 2, 3, 4,
        0, 80, 0, 80, 0, 0, 0, 0, 0, 0, 0, 0, 240, 0, 0, 0, 0, 0, 0, 0] ++
       List.replicate 20 (0 : Byte)) = some 0 :=
  ⟨analyze_total_fail_open.1 ⟨[]⟩ [],
   analyze_total_fail_open.2.1 ⟨[]⟩ [] (by decide),
   analyze_total_fail_open.2.2.1 ⟨[]⟩ _ 85 (by decide) (by decide),
   analyze_total_fail_open.2.2.2.1 ⟨[]⟩ _ 69 16909060 (by decide) (by decide)
     (by decide) (by decide) (by decide) (by decide),
   analyze_total_fail_open.2.2.2.2.1 ⟨[]⟩ _ 69 16909060 (by decide) (by decide)
     (by decide) (by decide) (by decide) (by decide),
   analyze_total_fail_open.2.2.2.2.2.1 ⟨[]⟩ _ 79 16909060 80 (by decide)
     (by decide) (by decide) (by decide) (by decide) (by decide) (by decide)
     (by decide) (by decide),
   analyze_total_fail_open.2.2.2.2.2.2 ⟨[]⟩ _ 69 16909060 80 240 (by decide)
     (by decide) (by decide) (by decide) (by decide) (by decide) (by decide)
     (by decide) (by decide) (by decide)⟩

/-! ### Claim C10: the TLS fingerprint can never match a bad pattern -/

theorem noRun_append (s : List Char) (k : Nat) (rest : List Char)
    (hd : '-' ∉ s) (hk : s.length ≤ k) :
    noRun k (s ++ rest) = noRun (k - s.length) rest := by
  induction s generalizing k with
  | nil => simp
  | cons c cs ih =>
    have hc : ¬ c = '-' := fun h => hd (by simp [h])
    have hcs : '-' ∉ cs := fun h => hd (by simp [h])
    have hk1 : cs.length ≤ k - 1 := by simp only [List.length_cons] at hk; omega
    have hk0 : k ≠ 0 := by simp only [List.length_cons] at hk; omega
    rw [List.cons_append, noRun, if_neg hc, decide_eq_true hk0, Bool.true_and,
      ih (k - 1) hcs hk1]
    congr 1
    simp only [List.length_cons]
    omega

theorem noRun_le (xs t : List Char) (k : Nat)
    (h : noRun k (xs ++ t) = true) (hd : '-' ∉ xs) : xs.length ≤ k := by
  induction xs generalizing k with
  | nil => simp
  | cons c cs ih =>
    have hc : ¬ c = '-' := fun hh => hd (by simp [hh])
    have hcs : '-' ∉ cs := fun hh => hd (by simp [hh])
    rw [List.cons_append, noRun, if_neg hc, Bool.and_eq_true, decide_eq_true_eq] at h
    have := ih (k - 1) h.2 hcs
    simp only [List.length_cons]
    omega

theorem infix_noRun_length (xs l : List Char) (hn : noRun 3 l = true)
    (hx : xs <:+: l) (hd : '-' ∉ xs) : xs.length ≤ 3 := by
  obtain ⟨s, t, rfl⟩ := hx
  have main : ∀ (s : List Char) (k : Nat), noRun k (s ++ (xs ++ t)) = true →
      xs.length ≤ max k 3 := by
    intro s
    induction s with
    | nil => exact fun k hk => le_max_of_le_left (noRun_le xs t k (by simpa using hk) hd)
    | cons c cs ih =>
      intro k hk
      rw [List.cons_append, noRun] at hk
      by_cases hc : c = '-'
      · rw [if_pos hc] at hk
        exact le_trans (ih 3 hk) (by omega)
      · rw [if_neg hc, Bool.and_eq_true] at hk
        exact le_trans (ih (k - 1) hk.2) (by simp [Nat.max_le, le_max_iff]; omega)
  simpa using main s 3 (by simpa [List.append_assoc] using hn)

theorem joinDash_noRun (parts : List (List Char))
    (h : ∀ pt ∈ parts, pt.length ≤ 3 ∧ '-' ∉ pt) :
    noRun 3 (joinDash parts) = true := by
  induction parts with
  | nil => rfl
  | cons p ps ih =>
    cases ps with
    | nil =>
      obtain ⟨hl, hd⟩ := h p (by simp)
      have := noRun_append p 3 [] hd hl
      simpa using this
    | cons q qs =>
      obtain ⟨hl, hd⟩ := h p (by simp)
      rw [show joinDash (p :: q :: qs) = p ++ '-' :: joinDash (q :: qs) from rfl]
      rw [noRun_append p 3 _ hd hl]
      rw [show noRun (3 - p.length) ('-' :: joinDash (q :: qs)) =
        noRun 3 (joinDash (q :: qs)) from by rw [noRun, if_pos rfl]]
      exact ih (fun pt hpt => h pt (by simp [hpt]))

theorem digitCh_ne_dash (d : Nat) (h : d < 10) : digitCh d ≠ '-' := by
  interval_cases d <;> decide

theorem decRepr_short (n : Nat) (h : n < 1000) :
    (decRepr n).length ≤ 3 ∧ '-' ∉ decRepr n := by
  unfold decRepr
  split_ifs with h10 h100
  · exact ⟨by simp, by
      simp only [List.mem_singleton]
      exact fun hc => digitCh_ne_dash n h10 hc.symm⟩
  · refine ⟨by simp, ?_⟩
    intro hc
    simp only [List.mem_cons, List.mem_singleton, List.not_mem_nil] at hc
    rcases hc with hc | hc | hc
    · exact digitCh_ne_dash (n / 10) (by omega) hc.symm
    · exact digitCh_ne_dash (n % 10) (by omega) hc.symm
    · exact hc
  · refine ⟨by simp, ?_⟩
    intro hc
    simp only [List.mem_cons, List.mem_singleton, List.not_mem_nil] at hc
    rcases hc with hc | hc | hc | hc
    · exact digitCh_ne_dash (n / 100) (by omega) hc.symm
    · exact digitCh_ne_dash (n / 10 % 10) (by omega) hc.symm
    · exact digitCh_ne_dash (n % 10) (by omega) hc.symm
    · exact hc

theorem fingerprint_noRun (payload : List Byte) :
    noRun 3 (calculate_tls_fingerprint payload) = true := by
  unfold calculate_tls_fingerprint
  apply joinDash_noRun
  intro pt hpt
  simp only [List.mem_map] at hpt
  obtain ⟨b, _, rfl⟩ := hpt
  exact decRepr_short b.val (by omega)

theorem listContainsSeq_infix {α : Type} [DecidableEq α] (hay pat : List α)
    (h : listContainsSeq hay pat = true) : pat <:+: hay := by
  unfold listContainsSeq at h
  rw [List.any_eq_true] at h
  obtain ⟨i, _, hw⟩ := h
  rw [decide_eq_true_eq] at hw
  refine ⟨hay.take i, (hay.drop i).drop pat.length, ?_⟩
  have hlen : (List.take pat.length (hay.drop i)).length = pat.length := by
    rw [hw]
  conv_lhs => rw [← hw]
  rw [hlen, List.append_assoc, List.take_append_drop, List.take_append_drop]

theorem is_malicious_fingerprint_false (payload : List Byte) :
    is_malicious_fingerprint (calculate_tls_fingerprint payload) = false := by
  by_contra h
  rw [Bool.not_eq_false, is_malicious_fingerprint, Bool.or_eq_true] at h
  have hnr := fingerprint_noRun payload
  rcases h with h | h
  · have hinf := listContainsSeq_infix _ _ h
    have h5 : "52393".toList <:+: calculate_tls_fingerprint payload :=
      List.IsInfix.trans
        (⟨"771-".toList, "-52392-49195-49199".toList, by decide⟩ :
          "52393".toList <:+: malFp1) hinf
    have := infix_noRun_length _ _ hnr h5 (by decide)
    simp at this
  · have hinf := listContainsSeq_infix _ _ h
    have h5 : "49195".toList <:+: calculate_tls_fingerprint payload :=
      List.IsInfix.trans
        (⟨"771-".toList, "-49199-49196-49200".toList, by decide⟩ :
          "49195".toList <:+: malFp2) hinf
    have := infix_noRun_length _ _ hnr h5 (by decide)
    simp at this

/-- Claim C10: the TLS sub-inspector can never produce a malicious verdict:
every fingerprint is a dash-joined list of at-most-three-digit decimal byte
renderings, so neither known-bad pattern (each containing a five-digit
dashless component) ever occurs as a substring, and `inspect_tls` always
returns no decision (or, for an out-of-bounds access, the panic marker) —
never `Some(MaliciousTlsFingerprint)`. -/
theorem tls_sub_inspector_never_malicious :
    (∀ payload : List Byte,
      is_malicious_fingerprint (calculate_tls_fingerprint payload) = false) ∧
    (∀ p : List Byte, inspect_tls p = none ∨ inspect_tls p = some none) := by
  refine ⟨is_malicious_fingerprint_false, fun p => ?_⟩
  cases h0 : byteAt p 0 with
  | none => left; simp [inspect_tls, h0]
  | some b0 =>
    by_cases g1 : p.length ≤ (b0 &&& 15) * 4 + 20
    · right; simp [inspect_tls, h0, g1]
    · cases h12 : byteAt p ((b0 &&& 15) * 4 + 12) with
      | none => left; simp [inspect_tls, h0, g1, h12]
      | some b12 =>
        by_cases g2 : p.length ≤ (b0 &&& 15) * 4 + (b12 >>> 4) * 4 + 5
        · right; simp [inspect_tls, h0, g1, h12, g2]
        · cases hh : byteAt (p.drop ((b0 &&& 15) * 4 + (b12 >>> 4) * 4)) 0 with
          | none => left; simp [inspect_tls, h0, g1, h12, g2, hh]
          | some hb =>
            right
            simp only [inspect_tls, h0, if_neg g1, h12, if_neg g2, hh,
              is_malicious_fingerprint_false, Bool.false_eq_true, if_false]
            split <;> rfl

/-! ### Claim C9: Shannon entropy range and degenerate cases -/

theorem sum_count_eq_length (data : List Byte) :
    ∑ i : Byte, data.count i = data.length := by
  induction data with
  | nil => simp
  | cons a t ih =>
    simp only [List.count_cons, List.length_cons]
    rw [Finset.sum_add_distrib, ih]
    simp

theorem calculate_entropy_eq (data : List Byte) (hne : ¬ data.isEmpty = true) :
    calculate_entropy data =
      ∑ i : Byte, -((data.count i : ℝ) / data.length *
        Real.logb 2 ((data.count i : ℝ) / data.length)) := by
  rw [calculate_entropy, if_neg hne]
  apply Finset.sum_congr rfl
  intro i _
  by_cases h : 0 < data.count i
  · rw [if_pos h]
  · rw [if_neg h]
    have hc : data.count i = 0 := by omega
    rw [hc]
    simp

theorem length_pos_real (data : List Byte) (hne : ¬ data.isEmpty = true) :
    0 < (data.length : ℝ) := by
  have h1 : data ≠ [] := by simpa [List.isEmpty_iff] using hne
  have h2 : 0 < data.length := List.length_pos.mpr h1
  exact_mod_cast h2

theorem calculate_entropy_nonneg (data : List Byte) :
    0 ≤ calculate_entropy data := by
  rw [calculate_entropy]
  split_ifs with h
  · exact le_rfl
  · apply Finset.sum_nonneg
    intro i _
    split_ifs with hc
    · have hlen := length_pos_real data h
      have hp0 : 0 ≤ (data.count i : ℝ) / data.length := by positivity
      have hp1 : (data.count i : ℝ) / data.length ≤ 1 := by
        rw [div_le_one hlen]
        exact_mod_cast data.count_le_length i
      have hlog : Real.logb 2 ((data.count i : ℝ) / data.length) ≤ 0 :=
        Real.logb_nonpos (by norm_num) hp0 hp1
      nlinarith
    · exact le_rfl

theorem log_term_bound (p : ℝ) (hp : 0 < p) :
    -(p * Real.log p) ≤ p * Real.log 256 + (1 / 256 - p) := by
  have h := Real.log_le_sub_one_of_pos (show (0 : ℝ) < 1 / (256 * p) by positivity)
  rw [one_div, Real.log_inv] at h
  rw [Real.log_mul (by norm_num) (ne_of_gt hp)] at h
  have h2 := mul_le_mul_of_nonneg_left h hp.le
  have h3 : p * ((256 * p)⁻¹ - 1) = 1 / 256 - p := by
    field_simp
    ring
  nlinarith

theorem calculate_entropy_le_eight (data : List Byte) :
    calculate_entropy data ≤ 8 := by
  by_cases hne : data.isEmpty = true
  · rw [calculate_entropy, if_pos hne]; norm_num
  · rw [calculate_entropy_eq data hne]
    have hlen := length_pos_real data hne
    have hlog2 : 0 < Real.log 2 := Real.log_pos (by norm_num)
    have hsumc : ∑ i : Byte, ((data.count i : ℝ)) = (data.length : ℝ) := by
      exact_mod_cast congrArg (Nat.cast : ℕ → ℝ) (sum_count_eq_length data)
    have hsum : ∑ i : Byte, (data.count i : ℝ) / data.length = 1 := by
      rw [← Finset.sum_div, hsumc]
      exact div_self (ne_of_gt hlen)
    have key : ∀ i : Byte,
        -((data.count i : ℝ) / data.length *
            Real.logb 2 ((data.count i : ℝ) / data.length)) ≤
          (data.count i : ℝ) / data.length * Real.logb 2 256 +
            (1 / 256 - (data.count i : ℝ) / data.length) / Real.log 2 := by
      intro i
      have hp0 : 0 ≤ (data.count i : ℝ) / data.length :=
        div_nonneg (Nat.cast_nonneg _) hlen.le
      rcases eq_or_lt_of_le hp0 with h0 | h0
      · rw [← h0]
        simp only [neg_zero, zero_mul, mul_zero, sub_zero, zero_add, neg_mul]
        exact div_nonneg (by norm_num) (Real.log_nonneg (by norm_num))
      · rw [Real.logb, Real.logb]
        have hb := log_term_bound ((data.count i : ℝ) / data.length) h0
        have expand : -((data.count i : ℝ) / data.length *
            (Real.log ((data.count i : ℝ) / data.length) / Real.log 2)) =
            (-((data.count i : ℝ) / data.length *
              Real.log ((data.count i : ℝ) / data.length))) / Real.log 2 := by
          ring
        have expand2 : (data.count i : ℝ) / data.length *
            (Real.log 256 / Real.log 2) +
            (1 / 256 - (data.count i : ℝ) / data.length) / Real.log 2 =
            ((data.count i : ℝ) / data.length * Real.log 256 +
              (1 / 256 - (data.count i : ℝ) / data.length)) / Real.log 2 := by
          ring
        rw [expand, expand2]
        exact (div_le_div_iff_of_pos_right hlog2).mpr hb
    calc ∑ i : Byte, -((data.count i : ℝ) / data.length *
            Real.logb 2 ((data.count i : ℝ) / data.length))
        ≤ ∑ i : Byte, ((data.count i : ℝ) / data.length * Real.logb 2 256 +
            (1 / 256 - (data.count i : ℝ) / data.length) / Real.log 2) :=
          Finset.sum_le_sum (fun i _ => key i)
      _ = Real.logb 2 256 := by
          rw [Finset.sum_add_distrib, ← Finset.sum_mul, hsum, one_mul,
            ← Finset.sum_div, Finset.sum_sub_distrib, hsum]
          simp only [Finset.sum_const, Finset.card_univ, Fintype.card_fin,
            nsmul_eq_mul]
          norm_num
      _ = 8 := by
          rw [show (256 : ℝ) = 2 ^ 8 by norm_num, Real.logb, Real.log_pow]
          rw [mul_div_assoc, div_self (ne_of_gt hlog2), mul_one]
          norm_num

theorem calculate_entropy_nil : calculate_entropy [] = 0 := by
  simp [calculate_entropy]

theorem calculate_entropy_replicate (b : Byte) (n : Nat) (hn : 0 < n) :
    calculate_entropy (List.replicate n b) = 0 := by
  have hne : ¬ (List.replicate n b).isEmpty = true := by
    simp [List.isEmpty_iff]
    omega
  rw [calculate_entropy, if_neg hne]
  apply Finset.sum_eq_zero
  intro i _
  by_cases hib : i = b
  · subst hib
    have hcount : (List.replicate n i).count i = n := by simp
    have hlen : (List.replicate n i).length = n := List.length_replicate n i
    rw [hcount, hlen, if_pos hn]
    have hn0 : (n : ℝ) ≠ 0 := Nat.cast_ne_zero.mpr (by omega)
    rw [div_self hn0]
    simp
  · have hcount : (List.replicate n b).count i = 0 := by
      simp [List.count_replicate]
      intro hc
      exact absurd hc (fun hh => hib hh.symm)
    simp [hcount]

/-- Claim C9: for every byte buffer the computed Shannon entropy lies in
`[0, 8]`; the entropy of the empty buffer is 0; and the entropy of any
non-empty buffer of one repeated byte value is 0. -/
theorem entropy_range_and_degenerate_cases :
    (∀ data : List Byte,
      0 ≤ calculate_entropy data ∧ calculate_entropy data ≤ 8) ∧
    calculate_entropy [] = 0 ∧
    (∀ (b : Byte) (n : Nat), 0 < n →
      calculate_entropy (List.replicate n b) = 0) :=
  ⟨fun data => ⟨calculate_entropy_nonneg data, calculate_entropy_le_eight data⟩,
   calculate_entropy_nil, calculate_entropy_replicate⟩

/-- Claim C9 witness: a concrete three-byte constant buffer has entropy 0. -/
theorem entropy_range_and_degenerate_cases_witness :
    0 < 3 ∧ calculate_entropy (List.replicate 3 (0 : Byte)) = 0 :=
  ⟨by decide, entropy_range_and_degenerate_cases.2.2 0 3 (by decide)⟩

/-- Claim C5 witness: concrete filesystems exercising both hypotheses. -/
theorem scan_file_contract_witness :
    fsAbsent.pathExists "f" = false ∧
    scan_file_internal fsAbsent [] (fun _ => "") "f" = .ok
      { file_path := "f", is_malicious := false,
        threat_name := some "FILE_NOT_FOUND", confidence := 0,
        scan_time_ms := 0 } ∧
    scan_file_internal fsUnreadable [] (fun _ => "") "f" = .error "io" :=
  ⟨rfl, (scan_file_contract fsAbsent [] (fun _ => "") "f").1 rfl,
   (scan_file_contract fsUnreadable [] (fun _ => "") "f").2.1 "io" rfl rfl⟩

end SecurityAndroid
